import Mathlib

/-!
Verification of the `smt` module of the `rune` repository.

The development shallowly embeds the two source files
`src/smt/smt.rs` and `src/smt/logics/qf_aufbv.rs`:

* `SMTError`, `Logic`, `Type` (here `SMTType`, since `Type` is a Lean
  keyword), `SMTResult` and the return types of the `SMT` and
  `SMTBackend` trait operations are transcribed directly from
  `src/smt/smt.rs`.
* The composed logic `QF_AUFBV` (its sort union, opcode union and
  free-variable map) is transcribed from the macro invocations in
  `src/smt/logics/qf_aufbv.rs`; the leaf theory modules
  (`bitvec`, `core`, `array_ex`) referenced there are not part of the
  repository snapshot and are modelled from the specification.
* The repository contains only the *signatures* of the solution
  enumerator (`solve_for`, `solve_all_for`, `check_sat`) and of the
  backend (`solve`, ...); their behaviour is modelled from the
  specification's algorithm (spec section 4.5) over an abstract backend
  state. Rust `u64` values are modelled as `Nat` (no arithmetic is
  performed on them, only storage and comparison).
-/

/-- Transcribed from `src/smt/smt.rs` lines 8-12: the two recoverable
error kinds. -/
inductive SMTError
  | Undefined
  | Unsat
deriving DecidableEq

/-- Transcribed from `src/smt/smt.rs` lines 15-21: the enumeration of
named logics accepted by `SMTBackend::set_logic`. -/
inductive Logic
  | QF_BV
  | QF_AX
  | QF_ABV
  | QF_AUFB
deriving DecidableEq

/-- Transcribed from `impl fmt::Display for Logic`
(`src/smt/smt.rs` lines 23-33). -/
def Logic.display : Logic → String
  | Logic.QF_BV => "QF_BV"
  | Logic.QF_AX => "QF_AX"
  | Logic.QF_ABV => "QF_ABV"
  | Logic.QF_AUFB => "QF_AUFB"

/-- All values of the `Logic` enumeration, in declaration order. -/
def Logic.all : List Logic :=
  [Logic.QF_BV, Logic.QF_AX, Logic.QF_ABV, Logic.QF_AUFB]

theorem Logic.mem_all (l : Logic) : l ∈ Logic.all := by
  cases l <;> simp [Logic.all]

/-- Transcribed from `src/smt/smt.rs` lines 35-38: the backend-facing
concrete type of a declared variable (`Type` in the source; renamed
because `Type` is a Lean keyword). The bit-vector width is a `u64` in
the source, modelled as `Nat`. -/
inductive SMTType
  | Int
  | BitVector (width : Nat)
deriving DecidableEq

/-- Transcribed from `impl fmt::Display for Type`
(`src/smt/smt.rs` lines 41-49): `Int` renders as `"Int"`, and
`BitVector(n)` renders as `format!("(_ BitVec {})", n)`, i.e. the
decimal digits of `n` spliced into the template. -/
def SMTType.display : SMTType → String
  | SMTType.Int => "Int"
  | SMTType.BitVector n => "(_ BitVec " ++ Nat.repr n ++ ")"

/-- Transcribed from `src/smt/smt.rs` line 52:
`pub type SMTResult<T> = Result<T, SMTError>;`. -/
abbrev SMTResult (α : Type) := Except SMTError α

/-- The model type returned by `SMTBackend::solve`
(`src/smt/smt.rs` line 81): `HashMap<Self::Ident, u64>`, modelled as an
association list from identifiers (strings) to values. -/
abbrev Model := List (String × Nat)

/-- The five solving operations declared across the `SMT` trait
(`src/smt/smt.rs` lines 55-65) and the `SMTBackend` trait
(lines 73-85). -/
inductive SolverOp
  | SMT_check_sat
  | SMT_solve_for
  | SMT_solve_all_for
  | Backend_check_sat
  | Backend_solve
deriving DecidableEq

/-- The declared return type of each solving operation, transcribed
from the trait signatures in `src/smt/smt.rs`:
`SMT::check_sat -> SMTResult<bool>` (line 64),
`SMT::solve_for -> SMTResult<u64>` (line 60),
`SMT::solve_all_for -> SMTResult<Vec<u64>>` (line 62),
`SMTBackend::check_sat -> bool` (line 80),
`SMTBackend::solve -> SMTResult<HashMap<Ident, u64>>` (line 81). -/
def SolverOp.resultType : SolverOp → Type
  | SolverOp.SMT_check_sat => SMTResult Bool
  | SolverOp.SMT_solve_for => SMTResult Nat
  | SolverOp.SMT_solve_all_for => SMTResult (List Nat)
  | SolverOp.Backend_check_sat => Bool
  | SolverOp.Backend_solve => SMTResult Model

/-- `isErrorResult op r e` holds when the result value `r` of solving
operation `op` reports the error `e`. A `bool`-returning operation has
no error-reporting result values. -/
def isErrorResult : (op : SolverOp) → SolverOp.resultType op → SMTError → Prop
  | SolverOp.SMT_check_sat, r, e => r = Except.error e
  | SolverOp.SMT_solve_for, r, e => r = Except.error e
  | SolverOp.SMT_solve_all_for, r, e => r = Except.error e
  | SolverOp.Backend_check_sat, _, _ => False
  | SolverOp.Backend_solve, r, e => r = Except.error e

/-- Modelled from the spec (section 4.2 and the `define_logic!`
invocation's `Display`): the composed logic `QF_AUFBV` is bundled under
the fixed identifier string `"QF_AUFBV"`. -/
def QF_AUFBV.name : String := "QF_AUFBV"

/-- Modelled from the spec: the sorts of the fixed-width bit-vector
theory module `bitvec` (referenced by `src/smt/logics/qf_aufbv.rs` but
not part of the repository snapshot): one sort per width. -/
inductive bitvec.Sorts
  | BitVec (width : Nat)
deriving DecidableEq

/-- Modelled from the spec: the opcodes of the `bitvec` theory module,
including the distinguished free-variable marker. -/
inductive bitvec.OpCodes
  | FreeVar
  | BvAdd
deriving DecidableEq

/-- Modelled from the spec: the sorts of the Boolean core theory
module `core` (referenced by `src/smt/logics/qf_aufbv.rs` but not part
of the repository snapshot). -/
inductive core.Sorts
  | Bool
deriving DecidableEq

/-- Modelled from the spec: the opcodes of the `core` theory module,
including the distinguished free-variable marker. -/
inductive core.OpCodes
  | FreeVar
  | And
deriving DecidableEq

/-- Modelled from the spec: the sorts of the extensional array theory
module `array_ex`, parameterized over an index sort type and an element
sort type so that a composed logic can instantiate both with its own
composed sort type. -/
inductive array_ex.Sorts (I : Type) (E : Type)
  | Array (index : I) (element : E)

/-- Modelled from the spec: the opcodes of the `array_ex` theory
module, including the distinguished free-variable marker. -/
inductive array_ex.OpCodes
  | FreeVar
  | Select
  | Store
deriving DecidableEq

/-- Transcribed from the `define_sorts_for_logic!(QF_AUFBV_Sorts, ...)`
invocation in `src/smt/logics/qf_aufbv.rs` lines 6-10: the composed
sort union of `QF_AUFBV`, with the array branch instantiated at the
composed sort type itself
(`array_ex::Sorts<QF_AUFBV_Sorts, QF_AUFBV_Sorts>`). -/
inductive QF_AUFBV_Sorts
  | BV (s : bitvec.Sorts)
  | Core (s : core.Sorts)
  | ArrayEx (s : array_ex.Sorts QF_AUFBV_Sorts QF_AUFBV_Sorts)

/-- Transcribed from the `define_fns_for_logic!(QF_AUFBV_Fn, ...)`
invocation in `src/smt/logics/qf_aufbv.rs` lines 12-16: the composed
opcode union of `QF_AUFBV`. -/
inductive QF_AUFBV_Fn
  | BVOps (op : bitvec.OpCodes)
  | CoreOps (op : core.OpCodes)
  | ArrayOps (op : array_ex.OpCodes)

/-- Transcribed from the `map { ... }` block of the
`define_logic!(QF_AUFBV, ...)` invocation in
`src/smt/logics/qf_aufbv.rs` lines 18-24: the free-variable mapping of
the composed logic. The block maps `QF_AUFBV_Sorts::BV(_)` to
`bitvec::OpCodes::FreeVar` and `QF_AUFBV_Sorts::ArrayEx(_)` to
`array_ex::OpCodes::FreeVar`; the `Core` branch does not appear in the
block (the macro body is not part of the repository snapshot, so a sort
absent from the block is modelled as having no designated free-variable
opcode, i.e. `none`). -/
def QF_AUFBV.free_var_map : QF_AUFBV_Sorts → Option QF_AUFBV_Fn
  | QF_AUFBV_Sorts.BV _ => some (QF_AUFBV_Fn.BVOps bitvec.OpCodes.FreeVar)
  | QF_AUFBV_Sorts.ArrayEx _ => some (QF_AUFBV_Fn.ArrayOps array_ex.OpCodes.FreeVar)
  | QF_AUFBV_Sorts.Core _ => none

/-- Whether a composed sort is an array sort. -/
def QF_AUFBV_Sorts.isArray : QF_AUFBV_Sorts → Bool
  | QF_AUFBV_Sorts.ArrayEx _ => true
  | _ => false

/-- Modelled from the spec (sections 4.3-4.5): the state of a backend
adapter session focused on one declared variable. `var` is the declared
identifier, `ty` its declared concrete type, `solutions` the set of
values of `var` that satisfy the accumulated assertions (each value a
`u64`, modelled as `Nat`), `blocked` the values excluded so far by
injected blocking constraints, and `logic` the logic selected by
`set_logic`, if any. -/
structure Backend where
  var : String
  ty : SMTType
  solutions : List Nat
  blocked : List Nat
  logic : Option Logic

/-- The identifiers declared in the session. -/
def Backend.declared (b : Backend) : List String := [b.var]

/-- The values of `var` that satisfy all current assertions, the
original ones and the injected blocking constraints alike. -/
def Backend.live (b : Backend) : List Nat :=
  b.solutions.filter (fun v => v ∉ b.blocked)

/-- Modelled from the spec (section 4.4): `set_logic` selects the
logic for the session; its argument is a value of the `Logic`
enumeration (`fn set_logic(&mut self, Logic)`,
`src/smt/smt.rs` line 77). -/
def Backend.set_logic (b : Backend) (l : Logic) : Backend :=
  { b with logic := some l }

/-- Modelled from the spec (section 4.4): `check_sat` performs one
satisfiability check against all currently asserted formulas and has no
side effect on the asserted set (`fn check_sat(&mut self) -> bool`,
`src/smt/smt.rs` line 80). -/
def Backend.check_sat (b : Backend) : Bool :=
  !(Backend.live b).isEmpty

/-- Modelled from the spec (section 4.4): `solve` returns a mapping
binding every declared identifier to a value consistent with all
assertions, or fails with `Unsat` when no such mapping exists
(`fn solve(&mut self) -> SMTResult<HashMap<Self::Ident, u64>>`,
`src/smt/smt.rs` line 81). -/
def Backend.solve (b : Backend) : SMTResult Model :=
  match Backend.live b with
  | [] => Except.error SMTError.Unsat
  | v :: _ => Except.ok [(b.var, v)]

/-- Modelled from the spec (section 4.5 step 4): inject a blocking
constraint excluding the value `v` from future solutions. -/
def Backend.block (b : Backend) (v : Nat) : Backend :=
  { b with blocked := v :: b.blocked }

/-- Modelled from the spec (section 4.5): one fuel-indexed unfolding of
the `solve_all_for` enumeration loop. Each iteration runs `check_sat`;
when unsatisfiable it returns the accumulated (here: empty) sequence as
a success; otherwise it extracts the value bound to the requested
variable from the model returned by `solve`, appends it, injects a
blocking constraint for it, and repeats. `none` means the fuel was
exhausted before the loop finished. -/
def solveAllForFuel : Nat → Backend → Option (SMTResult (List Nat))
  | 0, _ => none
  | fuel + 1, b =>
    match Backend.check_sat b with
    | false => some (Except.ok [])
    | true =>
      match Backend.solve b with
      | Except.error e => some (Except.error e)
      | Except.ok m =>
        match List.lookup b.var m with
        | none => some (Except.error SMTError.Undefined)
        | some v =>
          match solveAllForFuel fuel (Backend.block b v) with
          | none => none
          | some (Except.error e) => some (Except.error e)
          | some (Except.ok rest) => some (Except.ok (v :: rest))

/-- Modelled from the spec (section 4.5): `solve_all_for` runs the
enumeration loop; one more iteration than there are live solutions
always suffices (proved below as `solveAllForFuel_complete`), so the
fuel-exhaustion branch is dead. -/
def Backend.solve_all_for (b : Backend) : SMTResult (List Nat) :=
  match solveAllForFuel ((Backend.live b).length + 1) b with
  | some r => r
  | none => Except.error SMTError.Undefined

/-- Modelled from the spec (section 4.5): `solve_for` runs `check_sat`
and, on success, extracts the value bound to the requested variable
from the model; it fails with `Unsat` when no model exists. -/
def Backend.solve_for (b : Backend) : SMTResult Nat :=
  match Backend.solve b with
  | Except.error e => Except.error e
  | Except.ok m =>
    match List.lookup b.var m with
    | none => Except.error SMTError.Undefined
    | some v => Except.ok v

theorem Backend.mem_live {b : Backend} {x : Nat} :
    x ∈ Backend.live b ↔ x ∈ b.solutions ∧ x ∉ b.blocked := by
  simp [Backend.live]

/-- Blocking a value restricts the live solutions to those different
from it (spec: idempotence of blocking). -/
theorem Backend.live_block (b : Backend) (v : Nat) :
    Backend.live (Backend.block b v)
      = (Backend.live b).filter (fun x => x ≠ v) := by
  unfold Backend.live Backend.block
  rw [List.filter_filter]
  apply List.filter_congr
  intro x _
  by_cases h1 : x = v <;> by_cases h2 : x ∈ b.blocked <;>
    simp [h1, h2]

theorem length_filter_ne_lt {l : List Nat} {v : Nat} (h : v ∈ l) :
    (List.filter (fun x => x ≠ v) l).length < l.length := by
  induction l with
  | nil => cases h
  | cons a t ih =>
    by_cases hav : a = v
    · subst hav
      have hp : (fun x => decide (x ≠ a)) a = false := by simp
      simp only [List.filter_cons, hp, if_false, Bool.false_eq_true,
        List.length_cons]
      exact Nat.lt_succ_of_le (List.length_filter_le _ t)
    · have hp : (fun x => decide (x ≠ v)) a = true := by simp [hav]
      have hvt : v ∈ t := by
        rcases List.mem_cons.mp h with h1 | h2
        · exact absurd h1.symm hav
        · exact h2
      simp only [List.filter_cons, hp, if_true, List.length_cons]
      exact Nat.succ_lt_succ (ih hvt)

theorem Backend.check_sat_false_iff (b : Backend) :
    Backend.check_sat b = false ↔ Backend.live b = [] := by
  cases h : Backend.live b with
  | nil => simp [Backend.check_sat, h]
  | cons x t => simp [Backend.check_sat, h]

/-- Completeness of the enumeration loop: with more fuel than there
are live solutions, the loop finishes with a success, its result has no
duplicates, every returned value is a live solution, and the result is
no longer than the live solution list. -/
theorem solveAllForFuel_complete :
    ∀ (fuel : Nat) (b : Backend), (Backend.live b).length < fuel →
    ∃ l, solveAllForFuel fuel b = some (Except.ok l) ∧ l.Nodup ∧
      (∀ x ∈ l, x ∈ Backend.live b) ∧ l.length ≤ (Backend.live b).length := by
  intro fuel
  induction fuel with
  | zero => intro b h; omega
  | succ fuel ih =>
    intro b h
    by_cases hl : Backend.live b = []
    · have hcs : Backend.check_sat b = false := (Backend.check_sat_false_iff b).mpr hl
      exact ⟨[], by simp [solveAllForFuel, hcs], List.nodup_nil, by simp, by simp⟩
    · obtain ⟨v, t, hl2⟩ : ∃ v t, Backend.live b = v :: t := by
        cases hx : Backend.live b with
        | nil => exact absurd hx hl
        | cons a s => exact ⟨a, s, rfl⟩
      have hcs : Backend.check_sat b = true := by
        cases hcs2 : Backend.check_sat b with
        | true => rfl
        | false => exact absurd ((Backend.check_sat_false_iff b).mp hcs2) hl
      have hsolve : Backend.solve b = Except.ok [(b.var, v)] := by
        simp [Backend.solve, hl2]
      have hlook : List.lookup b.var [(b.var, v)] = some v := by
        simp [List.lookup]
      have hvmem : v ∈ Backend.live b := by
        rw [hl2]; exact List.mem_cons_self v t
      have hblt : (Backend.live (Backend.block b v)).length < (Backend.live b).length := by
        rw [Backend.live_block]
        exact length_filter_ne_lt hvmem
      have hlt : (Backend.live (Backend.block b v)).length < fuel := by omega
      obtain ⟨rest, hrest, hnd, hsub, hlen⟩ := ih (Backend.block b v) hlt
      refine ⟨v :: rest, ?_, ?_, ?_, ?_⟩
      · simp [solveAllForFuel, hcs, hsolve, hlook, hrest]
      · refine List.nodup_cons.mpr ⟨?_, hnd⟩
        intro hvr
        have hmem := hsub v hvr
        rw [Backend.live_block] at hmem
        have := (List.mem_filter.mp hmem).2
        simp at this
      · intro x hx
        rcases List.mem_cons.mp hx with rfl | hx2
        · exact hvmem
        · have hmem := hsub x hx2
          rw [Backend.live_block] at hmem
          exact (List.mem_filter.mp hmem).1
      · simp only [List.length_cons]
        omega

/-- The enumeration loop is fuel-insensitive: a finished run stays
finished, with the same result, under any larger fuel. -/
theorem solveAllForFuel_mono :
    ∀ (f1 : Nat) (b : Backend) (r : SMTResult (List Nat)) (f2 : Nat),
      f1 ≤ f2 → solveAllForFuel f1 b = some r → solveAllForFuel f2 b = some r := by
  intro f1
  induction f1 with
  | zero => intro b r f2 _ h; simp [solveAllForFuel] at h
  | succ f ih =>
    intro b r f2 hle h
    obtain ⟨g, rfl⟩ : ∃ g, f2 = g + 1 := ⟨f2 - 1, by omega⟩
    have hfg : f ≤ g := by omega
    cases hcs : Backend.check_sat b with
    | false =>
      simp only [solveAllForFuel, hcs] at h ⊢
      exact h
    | true =>
      cases hs : Backend.solve b with
      | error e =>
        simp only [solveAllForFuel, hcs, hs] at h ⊢
        exact h
      | ok m =>
        cases hlk : List.lookup b.var m with
        | none =>
          simp only [solveAllForFuel, hcs, hs, hlk] at h ⊢
          exact h
        | some v =>
          cases hin : solveAllForFuel f (Backend.block b v) with
          | none =>
            simp only [solveAllForFuel, hcs, hs, hlk, hin] at h
            exact Option.noConfusion h
          | some s =>
            have h2 := ih (Backend.block b v) s g hfg hin
            cases s with
            | error e =>
              simp only [solveAllForFuel, hcs, hs, hlk, hin, h2] at h ⊢
              exact h
            | ok rest =>
              simp only [solveAllForFuel, hcs, hs, hlk, hin, h2] at h ⊢
              exact h

/-- `solve_all_for` is what the loop computes under its canonical
fuel. -/
theorem solveAllForFuel_eq_solve_all_for (b : Backend) :
    solveAllForFuel ((Backend.live b).length + 1) b
      = some (Backend.solve_all_for b) := by
  obtain ⟨l, hl, -, -, -⟩ :=
    solveAllForFuel_complete ((Backend.live b).length + 1) b (by omega)
  unfold Backend.solve_all_for
  rw [hl]

/-- A session with a declared 2-bit bit-vector variable and the full
value domain satisfiable (the spec's enumeration scenario). -/
def exampleSession : Backend :=
  { var := "y", ty := SMTType.BitVector 2, solutions := [0, 1, 2, 3],
    blocked := [], logic := some Logic.QF_BV }

/-- A session whose assertion set is unsatisfiable from the start. -/
def emptySession : Backend :=
  { var := "x", ty := SMTType.BitVector 2, solutions := [],
    blocked := [], logic := some Logic.QF_BV }

/-- C1 counterexample: the `Core` branch of the composed `QF_AUFBV`
sort enumeration has no designated free-variable opcode — the `map`
block of `define_logic!(QF_AUFBV, ...)` covers only the `BV` and
`ArrayEx` branches, so the free-variable mapping is not total over all
three branches. -/
theorem free_var_map_core_none :
    QF_AUFBV.free_var_map (QF_AUFBV_Sorts.Core core.Sorts.Bool) = none := rfl

/-- C1 (amended): the free-variable mapping of `QF_AUFBV` assigns
exactly one free-variable opcode to each of the `BV` and `ArrayEx`
branches, and leaves the `Core` branch unmapped. -/
theorem free_var_map_branch_coverage (s : QF_AUFBV_Sorts) :
    (∀ t, s = QF_AUFBV_Sorts.BV t →
        QF_AUFBV.free_var_map s = some (QF_AUFBV_Fn.BVOps bitvec.OpCodes.FreeVar))
    ∧ (∀ t, s = QF_AUFBV_Sorts.ArrayEx t →
        QF_AUFBV.free_var_map s
          = some (QF_AUFBV_Fn.ArrayOps array_ex.OpCodes.FreeVar))
    ∧ (∀ t, s = QF_AUFBV_Sorts.Core t → QF_AUFBV.free_var_map s = none) := by
  refine ⟨?_, ?_, ?_⟩ <;> rintro t rfl <;> rfl

/-- C2 counterexample: no value of the `Logic` enumeration — the
argument type of `set_logic` — renders as `"QF_AUFBV"`, so the
composite `QF_AUFBV` is not among the named logics that can be passed
to `set_logic`. -/
theorem no_logic_renders_qf_aufbv :
    ¬ ∃ l : Logic, Logic.display l = "QF_AUFBV" := by
  rintro ⟨l, h⟩
  cases l <;> simp [Logic.display] at h

/-- C2 (amended): the named logics passable to `set_logic` are exactly
`QF_BV`, `QF_AX`, `QF_ABV` and `QF_AUFB`, each rendering to exactly its
SMT-LIB name; the composed `QF_AUFBV` logic carries the name string
`"QF_AUFBV"` but is a separate type-level construct, not a `Logic`
enumeration value. -/
theorem logic_names_exact (l : Logic) (b : Backend) :
    l ∈ Logic.all
    ∧ Logic.all.map Logic.display = ["QF_BV", "QF_AX", "QF_ABV", "QF_AUFB"]
    ∧ (Backend.set_logic b l).logic = some l
    ∧ QF_AUFBV.name = "QF_AUFBV" :=
  ⟨Logic.mem_all l, rfl, rfl, rfl⟩

/-- C4: rendering a concrete `Type` yields exactly `"Int"` for the
unbounded integer type and exactly `"(_ BitVec n)"` for a bit-vector
of width `n`; in particular `BitVector(32)` renders as
`"(_ BitVec 32)"`. -/
theorem type_rendering_exact (n : Nat) :
    SMTType.display SMTType.Int = "Int"
    ∧ SMTType.display (SMTType.BitVector 32) = "(_ BitVec 32)"
    ∧ SMTType.display (SMTType.BitVector n) = "(_ BitVec " ++ Nat.repr n ++ ")" :=
  ⟨rfl, rfl, rfl⟩

/-- C6 counterexample: `SMTBackend::check_sat` returns a plain `bool`
(`src/smt/smt.rs` line 80), so no result value of that operation can
report the `Unsat` error — the errors do not propagate from *every*
`check_sat` operation. -/
theorem backend_check_sat_no_error_channel :
    ¬ ∃ r : SolverOp.resultType SolverOp.Backend_check_sat,
        isErrorResult SolverOp.Backend_check_sat r SMTError.Unsat := by
  rintro ⟨r, h⟩
  exact h

/-- C6 (amended): exactly two recoverable error kinds exist, `Unsat` and
`Undefined`, and both can appear as explicit result values of every
solving operation except `SMTBackend::check_sat`, which returns a plain
`bool` and has no error channel. -/
theorem smt_error_channels (op : SolverOp) (e : SMTError) :
    (e = SMTError.Unsat ∨ e = SMTError.Undefined)
    ∧ (op ≠ SolverOp.Backend_check_sat →
        ∃ r : SolverOp.resultType op, isErrorResult op r e)
    ∧ (op = SolverOp.Backend_check_sat →
        ¬ ∃ r : SolverOp.resultType op, isErrorResult op r e) := by
  refine ⟨?_, ?_, ?_⟩
  · cases e with
    | Undefined => exact Or.inr rfl
    | Unsat => exact Or.inl rfl
  · intro hop
    cases op with
    | Backend_check_sat => exact absurd rfl hop
    | SMT_check_sat => exact ⟨Except.error e, rfl⟩
    | SMT_solve_for => exact ⟨Except.error e, rfl⟩
    | SMT_solve_all_for => exact ⟨Except.error e, rfl⟩
    | Backend_solve => exact ⟨Except.error e, rfl⟩
  · rintro rfl ⟨r, h⟩
    exact h

/-- C9: the array branch of the composed `QF_AUFBV` sort union is
parameterized over the composed sort type itself, so an array sort may
take any merged sort — including another array sort — as its index or
element parameter. -/
theorem nested_array_sorts_expressible :
    (∀ index element : QF_AUFBV_Sorts,
        QF_AUFBV_Sorts.isArray
          (QF_AUFBV_Sorts.ArrayEx (array_ex.Sorts.Array index element)) = true)
    ∧ ∃ index element : QF_AUFBV_Sorts,
        QF_AUFBV_Sorts.isArray index = true
        ∧ QF_AUFBV_Sorts.isArray
            (QF_AUFBV_Sorts.ArrayEx (array_ex.Sorts.Array index element)) = true :=
  ⟨fun _ _ => rfl,
    ⟨QF_AUFBV_Sorts.ArrayEx
        (array_ex.Sorts.Array (QF_AUFBV_Sorts.BV (bitvec.Sorts.BitVec 8))
          (QF_AUFBV_Sorts.BV (bitvec.Sorts.BitVec 8))),
      QF_AUFBV_Sorts.Core core.Sorts.Bool, rfl, rfl⟩⟩

/-- C10: type rendering is total over every 64-bit width with no
validation: for every `u64` value `n` (modelled as `n < 2 ^ 64`),
`BitVector(n)` is constructible and renders as `"(_ BitVec n)"`;
width zero renders as `"(_ BitVec 0)"`. -/
theorem bitvector_display_total (n : Nat) (h : n < 2 ^ 64) :
    SMTType.display (SMTType.BitVector n) = "(_ BitVec " ++ Nat.repr n ++ ")"
    ∧ SMTType.display (SMTType.BitVector 0) = "(_ BitVec 0)" :=
  ⟨rfl, rfl⟩

/-- C10 witness: the zero width is a `u64` value and renders as
`"(_ BitVec 0)"`. -/
theorem bitvector_display_total_witness :
    (0 : Nat) < 2 ^ 64
    ∧ (SMTType.display (SMTType.BitVector 0)
          = "(_ BitVec " ++ Nat.repr 0 ++ ")"
        ∧ SMTType.display (SMTType.BitVector 0) = "(_ BitVec 0)") :=
  ⟨by norm_num, bitvector_display_total 0 (by norm_num)⟩

/-- C3: for a declared bit-vector variable of width `n` (all of whose
satisfying values lie below `2 ^ n`), `solve_all_for` returns a
sequence that is pairwise distinct and no longer than `2 ^ n`. -/
theorem solve_all_for_distinct_and_bounded (b : Backend) (n : Nat)
    (hty : b.ty = SMTType.BitVector n)
    (hdom : ∀ v ∈ b.solutions, v < 2 ^ n) :
    ∃ l, Backend.solve_all_for b = Except.ok l
      ∧ l.Nodup ∧ l.length ≤ 2 ^ n := by
  obtain ⟨l, hl, hnd, hsub, -⟩ :=
    solveAllForFuel_complete ((Backend.live b).length + 1) b (by omega)
  have hres : Backend.solve_all_for b = Except.ok l := by
    unfold Backend.solve_all_for
    rw [hl]
  refine ⟨l, hres, hnd, ?_⟩
  have hbound : ∀ x ∈ l, x < 2 ^ n := fun x hx =>
    hdom x (Backend.mem_live.mp (hsub x hx)).1
  have hsubset : l.toFinset ⊆ Finset.range (2 ^ n) := fun x hx =>
    Finset.mem_range.mpr (hbound x (List.mem_toFinset.mp hx))
  calc l.length = l.toFinset.card := (List.toFinset_card_of_nodup hnd).symm
    _ ≤ (Finset.range (2 ^ n)).card := Finset.card_le_card hsubset
    _ = 2 ^ n := Finset.card_range _

/-- C3 witness: enumerating a free 2-bit variable returns a duplicate
free sequence of at most four values. -/
theorem solve_all_for_distinct_and_bounded_witness :
    exampleSession.ty = SMTType.BitVector 2
    ∧ (∀ v ∈ exampleSession.solutions, v < 2 ^ 2)
    ∧ ∃ l, Backend.solve_all_for exampleSession = Except.ok l
        ∧ l.Nodup ∧ l.length ≤ 2 ^ 2 :=
  ⟨rfl, by decide,
    solve_all_for_distinct_and_bounded exampleSession 2 rfl (by decide)⟩

/-- C5: `solve` has exactly three possible outcomes — a model, the
`Unsat` error, or the `Undefined` error; a returned model binds every
declared identifier to a value consistent with all assertions, and the
`Unsat` outcome occurs only when no consistent value exists. -/
theorem solve_outcome_trichotomy (b : Backend) (r : SMTResult Model) :
    ((∃ m, r = Except.ok m) ∨ r = Except.error SMTError.Unsat
        ∨ r = Except.error SMTError.Undefined)
    ∧ (∀ m, Backend.solve b = Except.ok m →
        ∀ x ∈ Backend.declared b,
          ∃ v, List.lookup x m = some v ∧ v ∈ Backend.live b)
    ∧ (Backend.solve b = Except.error SMTError.Unsat →
        Backend.live b = []) := by
  refine ⟨?_, ?_, ?_⟩
  · cases r with
    | ok m => exact Or.inl ⟨m, rfl⟩
    | error e =>
      cases e with
      | Unsat => exact Or.inr (Or.inl rfl)
      | Undefined => exact Or.inr (Or.inr rfl)
  · intro m hm x hx
    have hx2 : x = b.var := by simpa [Backend.declared] using hx
    subst hx2
    cases hl : Backend.live b with
    | nil =>
      have hbad : Backend.solve b = Except.error SMTError.Unsat := by
        simp [Backend.solve, hl]
      rw [hbad] at hm
      exact Except.noConfusion hm
    | cons v t =>
      have hsv : Backend.solve b = Except.ok [(b.var, v)] := by
        simp [Backend.solve, hl]
      rw [hsv] at hm
      injection hm with hm2
      subst hm2
      exact ⟨v, by simp [List.lookup], List.mem_cons_self v t⟩
  · intro hm
    cases hl : Backend.live b with
    | nil => rfl
    | cons v t =>
      have hsv : Backend.solve b = Except.ok [(b.var, v)] := by
        simp [Backend.solve, hl]
      rw [hsv] at hm
      exact Except.noConfusion hm

/-- When the session is satisfiable, the first iteration of the
enumeration loop already emits the first live value, so `solve_all_for`
returns a non-empty successful sequence. -/
theorem solve_all_for_cons_of_sat (b : Backend) {v : Nat} {t : List Nat}
    (hl : Backend.live b = v :: t) :
    ∃ rest, Backend.solve_all_for b = Except.ok (v :: rest) := by
  have hcs : Backend.check_sat b = true := by
    cases hcs2 : Backend.check_sat b with
    | true => rfl
    | false =>
      rw [(Backend.check_sat_false_iff b).mp hcs2] at hl
      exact List.noConfusion hl
  have hsolve : Backend.solve b = Except.ok [(b.var, v)] := by
    simp [Backend.solve, hl]
  have hlook : List.lookup b.var [(b.var, v)] = some v := by
    simp [List.lookup]
  have hvmem : v ∈ Backend.live b := by
    rw [hl]; exact List.mem_cons_self v t
  have hblt : (Backend.live (Backend.block b v)).length < (Backend.live b).length := by
    rw [Backend.live_block]
    exact length_filter_ne_lt hvmem
  obtain ⟨rest, hrest, -, -, -⟩ :=
    solveAllForFuel_complete ((Backend.live b).length) (Backend.block b v) hblt
  have houter : solveAllForFuel ((Backend.live b).length + 1) b
      = some (Except.ok (v :: rest)) := by
    simp [solveAllForFuel, hcs, hsolve, hlook, hrest]
  refine ⟨rest, ?_⟩
  unfold Backend.solve_all_for
  rw [houter]

/-- C7: when the very first `check_sat` reports unsatisfiable,
`solve_all_for` returns the empty sequence as a successful result, not
an error; conversely, an empty returned sequence occurs only when the
assertion set was unsatisfiable from the start. -/
theorem solve_all_for_unsat_gives_empty_ok (b : Backend) :
    Backend.solve_all_for b = Except.ok [] ↔ Backend.check_sat b = false := by
  constructor
  · intro h
    cases hl : Backend.live b with
    | nil => exact (Backend.check_sat_false_iff b).mpr hl
    | cons v t =>
      obtain ⟨rest, hr⟩ := solve_all_for_cons_of_sat b hl
      rw [hr] at h
      injection h with h2
      exact List.noConfusion h2
  · intro h
    have hl : Backend.live b = [] := (Backend.check_sat_false_iff b).mp h
    unfold Backend.solve_all_for
    simp [hl, solveAllForFuel, h]

/-- C7 witness: a session that is unsatisfiable from the start yields
the empty sequence as a success. -/
theorem solve_all_for_unsat_gives_empty_ok_witness :
    Backend.check_sat emptySession = false
    ∧ Backend.solve_all_for emptySession = Except.ok [] :=
  ⟨rfl, (solve_all_for_unsat_gives_empty_ok emptySession).mpr rfl⟩

/-- C8: for a declared fixed-width bit-vector variable the enumeration
loop of `solve_all_for` terminates — `2 ^ n + 1` iterations always
suffice, because the value domain is finite. -/
theorem solve_all_for_terminates_fixed_width (b : Backend) (n : Nat)
    (hty : b.ty = SMTType.BitVector n)
    (hdom : ∀ v ∈ b.solutions, v < 2 ^ n)
    (hnd : b.solutions.Nodup) :
    solveAllForFuel (2 ^ n + 1) b = some (Backend.solve_all_for b) := by
  have hlive_nd : (Backend.live b).Nodup := List.Nodup.filter _ hnd
  have hlive_bound : ∀ x ∈ Backend.live b, x < 2 ^ n := fun x hx =>
    hdom x (Backend.mem_live.mp hx).1
  have hsubset : (Backend.live b).toFinset ⊆ Finset.range (2 ^ n) := fun x hx =>
    Finset.mem_range.mpr (hlive_bound x (List.mem_toFinset.mp hx))
  have hlen : (Backend.live b).length ≤ 2 ^ n := by
    calc (Backend.live b).length = (Backend.live b).toFinset.card :=
        (List.toFinset_card_of_nodup hlive_nd).symm
      _ ≤ (Finset.range (2 ^ n)).card := Finset.card_le_card hsubset
      _ = 2 ^ n := Finset.card_range _
  exact solveAllForFuel_mono ((Backend.live b).length + 1) b _ (2 ^ n + 1)
    (by omega) (solveAllForFuel_eq_solve_all_for b)

/-- C8 witness: the enumeration over a free 2-bit variable finishes
within `2 ^ 2 + 1` iterations. -/
theorem solve_all_for_terminates_fixed_width_witness :
    exampleSession.ty = SMTType.BitVector 2
    ∧ (∀ v ∈ exampleSession.solutions, v < 2 ^ 2)
    ∧ exampleSession.solutions.Nodup
    ∧ solveAllForFuel (2 ^ 2 + 1) exampleSession
        = some (Backend.solve_all_for exampleSession) :=
  ⟨rfl, by decide, by decide,
    solve_all_for_terminates_fixed_width exampleSession 2 rfl
      (by decide) (by decide)⟩
